import Mathlib

/-!
# Verification of `skmultiflow/data/imbalanced_stream.py` (`ImbalancedStream`)

Shallow embedding of the imbalanced-stream meta-generator: a resampler that
wraps an underlying labeled stream and re-emits instances so that classes
appear according to a requested categorical `ratio`, using one FIFO buffer
per class.

Modelling decisions (all translated from the Python source):
* Python numeric values in the `ratio` tuple are tagged (`PyVal`): the code
  distinguishes `float`, `np.float64` and other types with `type(i) is ...`
  checks.  Numeric magnitudes are modelled as rationals.
* `np.round(x, 6)` rounds half-to-even; `roundHalfEven`/`round6` reproduce it.
* The wrapped stream is a finite list of `(feature, label)` pairs; a pull on
  the empty list is the `IndexError` path of `_next_individual_sample`.
  Features and labels are integers (they are opaque payloads here).
* Randomness (`self._random_state.choice`) is modelled by an oracle: the
  drawn class index `k` is an explicit argument of the single-instance draw,
  and a batch takes the list of drawn indices.
* Python exceptions are explicit: preparation returns `Option PrepErr` next
  to the (possibly partially mutated) state, because a raising Python method
  keeps all mutations made before the raise; the draw returns `Except DrawErr`
  (`lookupFail` is the uncaught `ValueError` of `list.index`, `popEmpty` the
  uncaught `IndexError` of `pop(0)` on an empty buffer).
-/

/-- A Python value appearing in the configured ratio tuple: the code checks
`type(i) is float` / `type(i) is np.float64`, so the runtime tag matters. -/
inductive PyVal where
  | pfloat : ℚ → PyVal
  | npfloat64 : ℚ → PyVal
  | pint : ℤ → PyVal
  deriving DecidableEq, Repr

/-- Numeric value of a ratio entry, as used by `np.sum`. -/
def PyVal.toRat : PyVal → ℚ
  | .pfloat q => q
  | .npfloat64 q => q
  | .pint n => (n : ℚ)

/-- `type(i) is float` -/
def PyVal.isPyFloat : PyVal → Bool
  | .pfloat _ => true
  | _ => false

/-- `type(i) is np.float64` -/
def PyVal.isNpFloat64 : PyVal → Bool
  | .npfloat64 _ => true
  | _ => false

/-- "is a floating-point number" in the spec's sense: either representation. -/
def PyVal.isFloatLike (v : PyVal) : Bool :=
  v.isPyFloat || v.isNpFloat64

/-- The configured `ratio`: the code checks `type(self.ratio) is tuple`, so we
record whether the value is a tuple next to its elements. -/
structure RatioCfg where
  isTuple : Bool
  elems : List PyVal
  deriving DecidableEq, Repr

/-- Round-half-to-even to an integer, as `np.round` does. -/
def roundHalfEven (x : ℚ) : ℤ :=
  let f := ⌊x⌋
  let r := x - f
  if r < 1/2 then f
  else if 1/2 < r then f + 1
  else if f % 2 = 0 then f else f + 1

/-- `np.round(x, 6)`. -/
def round6 (x : ℚ) : ℚ :=
  (roundHalfEven (x * 1000000) : ℚ) / 1000000

/-- Errors raised (as `ValueError` in Python) during preparation; the spec
calls the schema check failure `UnsupportedSchemaError` and the four ratio
check failures `ConfigurationError`. -/
inductive PrepErr where
  | unsupportedSchema
  | notTuple
  | lengthMismatch
  | badElementType
  | badSum
  deriving DecidableEq, Repr

/-- `_check_errors` of `ImbalancedStream`, checking the ratio against the
class registry `target_values` in source order. -/
def _check_errors (ratio : RatioCfg) (target_values : List ℤ) : Option PrepErr :=
  if ratio.isTuple = false then some .notTuple
  else if ratio.elems.length ≠ target_values.length then some .lengthMismatch
  else if ¬ (ratio.elems.all PyVal.isPyFloat = true ∨
             ratio.elems.all PyVal.isNpFloat64 = true) then some .badElementType
  else if round6 (ratio.elems.map PyVal.toRat).sum ≠ 1 then some .badSum
  else none

/-- The wrapped (original) stream: its schema metadata plus its remaining
instances.  `init_samples` is the sequence the stream holds right after its
own `prepare_for_use`/`restart`; `samples` is what is left to pull. -/
structure OrigStream where
  n_targets : ℕ
  feature_names : List String
  n_cat_features : ℕ
  n_features : ℕ
  n_num_features : ℕ
  target_names : List String
  target_values : List ℤ
  init_samples : List (ℤ × ℤ)
  samples : List (ℤ × ℤ)
  deriving DecidableEq, Repr

/-- The mutable state of an `ImbalancedStream` instance.  Fields that Python
initialises to `None` in `__init__` are `Option`s. -/
structure ImbState where
  original : OrigStream
  ratio : RatioCfg
  no_more_samples : Bool
  n_targets : Option ℕ
  feature_names : Option (List String)
  n_cat_features : Option ℕ
  n_features : Option ℕ
  n_num_features : Option ℕ
  target_names : Option (List String)
  target_values : Option (List ℤ)
  instance_buffer : Option (List (List (ℤ × ℤ)))
  current_sample_x : Option ℤ
  current_sample_y : Option ℤ
  deriving DecidableEq, Repr

/-- `__init__`. -/
def initImb (orig : OrigStream) (ratio : RatioCfg) : ImbState :=
  { original := orig
    ratio := ratio
    no_more_samples := false
    n_targets := none
    feature_names := none
    n_cat_features := none
    n_features := none
    n_num_features := none
    target_names := none
    target_values := none
    instance_buffer := none
    current_sample_x := none
    current_sample_y := none }

/-- `_set_params_after_init`: copies schema metadata from the wrapped stream;
raises when the wrapped stream is not single-target.  `self.n_targets` is
assigned before the check, so it is set even on the failing path. -/
def _set_params_after_init (s : ImbState) : Option PrepErr × ImbState :=
  let s1 := { s with n_targets := some s.original.n_targets }
  if s.original.n_targets ≠ 1 then (some .unsupportedSchema, s1)
  else (none,
    { s1 with
      feature_names := some s.original.feature_names
      n_cat_features := some s.original.n_cat_features
      n_features := some s.original.n_features
      n_num_features := some s.original.n_num_features
      target_names := some s.original.target_names
      target_values := some s.original.target_values })

/-- `_prepare_for_use`: schema copy, buffer allocation, flag reset, then the
ratio checks.  The buffer allocation and flag reset happen before
`_check_errors`, so they survive a configuration failure (Python exceptions
do not roll back mutations).  `check_random_state` is modelled away: the
random engine is replaced by the index oracle of the draw. -/
def _prepare_for_use (s : ImbState) : Option PrepErr × ImbState :=
  match _set_params_after_init s with
  | (some e, s1) => (some e, s1)
  | (none, s1) =>
    let s2 := { s1 with
      instance_buffer :=
        some (List.replicate (s1.target_values.getD []).length ([] : List (ℤ × ℤ)))
      no_more_samples := false }
    match _check_errors s2.ratio (s2.target_values.getD []) with
    | some e => (some e, s2)
    | none => (none, s2)

/-- `prepare_for_use`: prepares the wrapped stream (restoring its initial
sample sequence), then runs `_prepare_for_use`. -/
def prepare_for_use (s : ImbState) : Option PrepErr × ImbState :=
  _prepare_for_use
    { s with original := { s.original with samples := s.original.init_samples } }

/-- `restart`: restarts the wrapped stream, then reruns `_prepare_for_use`. -/
def restart (s : ImbState) : Option PrepErr × ImbState :=
  _prepare_for_use
    { s with original := { s.original with samples := s.original.init_samples } }

/-- The state a successful `prepare_for_use`/`restart` produces (proved equal
to their result in `prepare_ok` below): metadata copied, one empty buffer per
registered class, exhaustion flag cleared, wrapped stream at its initial
sequence. -/
def prepState (s : ImbState) : ImbState :=
  { original := { s.original with samples := s.original.init_samples }
    ratio := s.ratio
    no_more_samples := false
    n_targets := some s.original.n_targets
    feature_names := some s.original.feature_names
    n_cat_features := some s.original.n_cat_features
    n_features := some s.original.n_features
    n_num_features := some s.original.n_num_features
    target_names := some s.original.target_names
    target_values := some s.original.target_values
    instance_buffer :=
      some (List.replicate s.original.target_values.length ([] : List (ℤ × ℤ)))
    current_sample_x := s.current_sample_x
    current_sample_y := s.current_sample_y }

/-- `has_more_samples`: the wrapped stream still has instances and the
exhaustion flag is not set. -/
def has_more_samples (s : ImbState) : Bool :=
  !s.original.samples.isEmpty && !s.no_more_samples

/-- `n_remaining_samples`: delegates to the wrapped stream. -/
def n_remaining_samples (s : ImbState) : ℕ :=
  s.original.samples.length

/-- Python's `list.index(t)`: index of the first occurrence of `t`, `none`
standing for the raised `ValueError` when `t` does not occur. -/
def listIndex (t : ℤ) : List ℤ → Option ℕ
  | [] => none
  | x :: xs => if x = t then some 0 else (listIndex t xs).map (· + 1)

/-- Uncaught exceptions of the draw: `lookupFail` is the `ValueError` raised
by `self.target_values.index(target)` when the pulled label is not in the
registry (not caught: the `except` clause only catches `IndexError`);
`popEmpty` is the `IndexError` of `pop(0)` on an empty buffer. -/
inductive DrawErr where
  | lookupFail
  | popEmpty
  deriving DecidableEq, Repr

/-- The `while len(self.instance_buffer[index_class]) == 0` fill loop of
`_next_individual_sample`: pull from the wrapped stream, file the instance
into its true class's buffer, until buffer `k` is non-empty; an exhausted
pull (`IndexError`) sets the flag and breaks.  Returns the new buffers, the
remaining wrapped-stream instances, and the flag. -/
def fillLoop (tv : List ℤ) (k : ℕ) :
    List (ℤ × ℤ) → List (List (ℤ × ℤ)) → Bool →
    Except DrawErr (List (List (ℤ × ℤ)) × List (ℤ × ℤ) × Bool)
  | [], bufs, noMore =>
    if bufs.getD k [] = [] then .ok (bufs, [], true)
    else .ok (bufs, [], noMore)
  | (f, t) :: rest, bufs, noMore =>
    if bufs.getD k [] = [] then
      match listIndex t tv with
      | none => .error .lookupFail
      | some i => fillLoop tv k rest (bufs.set i (bufs.getD i [] ++ [(f, t)])) noMore
    else .ok (bufs, (f, t) :: rest, noMore)

/-- `_next_individual_sample`, with the drawn class index `k` supplied by the
randomness oracle (in Python, `self._random_state.choice(np.arange(len(
self.target_values)), p=self.ratio)`, always in `[0, len(target_values))`). -/
def _next_individual_sample (k : ℕ) (s : ImbState) :
    Except DrawErr ((Option ℤ × Option ℤ) × ImbState) :=
  let tv := s.target_values.getD []
  let bufs := s.instance_buffer.getD []
  match fillLoop tv k s.original.samples bufs s.no_more_samples with
  | .error e => .error e
  | .ok (bufs1, stream1, noMore1) =>
    let s1 := { s with
      original := { s.original with samples := stream1 }
      instance_buffer := some bufs1
      no_more_samples := noMore1 }
    if noMore1 then
      .ok ((none, none), { s1 with current_sample_x := none, current_sample_y := none })
    else
      match bufs1.getD k [] with
      | [] => .error .popEmpty
      | inst :: restBuf =>
        .ok ((some inst.1, some inst.2),
          { s1 with
            instance_buffer := some (bufs1.set k restBuf)
            current_sample_x := some inst.1
            current_sample_y := some inst.2 })

/-- `next_sample(batch_size)`: run the draw once per oracle entry, keep the
pairs whose feature and label are both non-`None`, in draw order. -/
def next_sample : List ℕ → ImbState → Except DrawErr ((List ℤ × List ℤ) × ImbState)
  | [], s => .ok (([], []), s)
  | k :: ks, s =>
    match _next_individual_sample k s with
    | .error e => .error e
    | .ok ((f?, t?), s1) =>
      match next_sample ks s1 with
      | .error e => .error e
      | .ok ((fs, ts), s2) =>
        match f?, t? with
        | some f, some t => .ok ((f :: fs, t :: ts), s2)
        | _, _ => .ok ((fs, ts), s2)

/-- The raw per-call results of the draw over an oracle list: one entry per
invocation of `_next_individual_sample` (used to state that `next_sample`
makes exactly `n` draws and keeps exactly the non-sentinel ones). -/
def drawResults : List ℕ → ImbState →
    Except DrawErr (List (Option ℤ × Option ℤ) × ImbState)
  | [], s => .ok ([], s)
  | k :: ks, s =>
    match _next_individual_sample k s with
    | .error e => .error e
    | .ok (r, s1) =>
      match drawResults ks s1 with
      | .error e => .error e
      | .ok (rs, s2) => .ok (r :: rs, s2)

/-- Buffer well-formedness: one buffer per registry entry, and every pair
stored in buffer `i` carries the class value registered at index `i`. -/
def BuffersInv (tv : List ℤ) (bufs : List (List (ℤ × ℤ))) : Prop :=
  bufs.length = tv.length ∧
    ∀ i, i < bufs.length → ∀ p : ℤ × ℤ, p ∈ bufs.getD i [] → tv.getD i 0 = p.2

instance (tv : List ℤ) (bufs : List (List (ℤ × ℤ))) : Decidable (BuffersInv tv bufs) := by
  unfold BuffersInv
  infer_instance

/-! ## Concrete instances used as witnesses and counterexamples -/

/-- A two-class wrapped stream with three remaining instances. -/
def wOrig : OrigStream :=
  { n_targets := 1
    feature_names := ["x0"]
    n_cat_features := 0
    n_features := 1
    n_num_features := 1
    target_names := ["target_0"]
    target_values := [0, 1]
    init_samples := [(10, 0), (11, 1), (12, 0)]
    samples := [(10, 0), (11, 1), (12, 0)] }

/-- A valid fifty-fifty ratio. -/
def wCfg : RatioCfg := ⟨true, [.pfloat (1/2), .pfloat (1/2)]⟩

/-- State after a successful preparation of `wOrig` with `wCfg`. -/
def wPrepared : ImbState := prepState (initImb wOrig wCfg)

/-- State after drawing class index 1 from `wPrepared`. -/
def wDrawn : ImbState :=
  match _next_individual_sample 1 wPrepared with
  | .ok (_, s1) => s1
  | .error _ => wPrepared

/-- A ratio tuple mixing the two floating-point representations. -/
def cMixed : RatioCfg := ⟨true, [.pfloat (1/2), .npfloat64 (1/2)]⟩

/-- A ratio tuple of floats with entries outside `[0, 1]` summing to 1. -/
def cRange : RatioCfg := ⟨true, [.pfloat (3/2), .pfloat (-1/2)]⟩

/-- A ratio tuple of floats whose sum is not 1. -/
def cBadSum : RatioCfg := ⟨true, [.pfloat (1/2), .pfloat (1/4)]⟩

/-- A wrapped stream that emits the label 99, absent from its registry. -/
def wOutOrig : OrigStream :=
  { wOrig with init_samples := [(7, 99)], samples := [(7, 99)] }

/-- State after a successful preparation of `wOutOrig` with `wCfg`. -/
def wOutState : ImbState := prepState (initImb wOutOrig wCfg)

/-- A reachable exhausted state: flag set, wrapped stream drained. -/
def wExhausted : ImbState :=
  { wPrepared with
    no_more_samples := true
    original := { wOrig with samples := [] } }

/-- The state left behind by a preparation that fails on `cBadSum`. -/
def wFailed : ImbState := prepState (initImb wOrig cBadSum)


/-! ## Helper lemmas about buffers and the fill loop -/

lemma getD_set_self (l : List (List (ℤ × ℤ))) (j : ℕ) (x : List (ℤ × ℤ))
    (h : j < l.length) : (l.set j x).getD j [] = x := by
  simp [List.getD_eq_getElem?_getD, List.getElem?_set_self', List.getElem?_eq_getElem h]

lemma getD_set_ne (l : List (List (ℤ × ℤ))) (i j : ℕ) (x : List (ℤ × ℤ))
    (h : i ≠ j) : (l.set j x).getD i [] = l.getD i [] := by
  simp [List.getD_eq_getElem?_getD, List.getElem?_set_ne (Ne.symm h)]

lemma getD_replicate_nil (n i : ℕ) :
    (List.replicate n ([] : List (ℤ × ℤ))).getD i [] = [] := by
  simp only [List.getD_eq_getElem?_getD, List.getElem?_replicate]
  split <;> simp

lemma listIndex_spec (t : ℤ) (l : List ℤ) (i : ℕ) (h : listIndex t l = some i) :
    i < l.length ∧ l.getD i 0 = t := by
  induction l generalizing i with
  | nil => simp [listIndex] at h
  | cons x xs ih =>
    by_cases hx : x = t
    · simp only [listIndex, if_pos hx] at h
      cases h
      simp [hx]
    · simp only [listIndex, if_neg hx, Option.map_eq_some'] at h
      obtain ⟨j, hj, rfl⟩ := h
      obtain ⟨h1, h2⟩ := ih j hj
      constructor
      · simpa using h1
      · simpa using h2

lemma listIndex_isSome (t : ℤ) (l : List ℤ) (h : t ∈ l) :
    (listIndex t l).isSome = true := by
  induction l with
  | nil => simp at h
  | cons x xs ih =>
    by_cases hx : x = t
    · simp [listIndex, hx]
    · rcases List.mem_cons.mp h with h1 | h1
      · exact absurd h1.symm hx
      · simp [listIndex, hx, ih h1]

lemma set_append_getD (bufs : List (List (ℤ × ℤ))) (i j : ℕ) (x : ℤ × ℤ) :
    ∃ suf, (bufs.set j (bufs.getD j [] ++ [x])).getD i [] = bufs.getD i [] ++ suf := by
  by_cases hij : i = j
  · subst hij
    by_cases hj : i < bufs.length
    · exact ⟨[x], getD_set_self _ _ _ hj⟩
    · rw [List.set_eq_of_length_le (le_of_not_lt hj)]
      exact ⟨[], by simp⟩
  · rw [getD_set_ne _ _ _ _ hij]
    exact ⟨[], by simp⟩

lemma fillLoop_nil (tv : List ℤ) (k : ℕ) (bufs : List (List (ℤ × ℤ))) (noMore : Bool) :
    fillLoop tv k [] bufs noMore =
      if bufs.getD k [] = [] then .ok (bufs, [], true) else .ok (bufs, [], noMore) := rfl

lemma fillLoop_cons (tv : List ℤ) (k : ℕ) (f t : ℤ) (rest : List (ℤ × ℤ))
    (bufs : List (List (ℤ × ℤ))) (noMore : Bool) :
    fillLoop tv k ((f, t) :: rest) bufs noMore =
      if bufs.getD k [] = [] then
        match listIndex t tv with
        | none => .error .lookupFail
        | some i => fillLoop tv k rest (bufs.set i (bufs.getD i [] ++ [(f, t)])) noMore
      else .ok (bufs, (f, t) :: rest, noMore) := rfl

lemma fillLoop_flag_false (tv : List ℤ) (k : ℕ) (stream : List (ℤ × ℤ))
    (bufs bufs' : List (List (ℤ × ℤ))) (noMore : Bool) (stream' : List (ℤ × ℤ))
    (h : fillLoop tv k stream bufs noMore = .ok (bufs', stream', false)) :
    bufs'.getD k [] ≠ [] ∧ noMore = false := by
  induction stream generalizing bufs noMore with
  | nil =>
    rw [fillLoop_nil] at h
    by_cases hb : bufs.getD k [] = []
    · rw [if_pos hb] at h
      simp at h
    · rw [if_neg hb] at h
      simp only [Except.ok.injEq, Prod.mk.injEq] at h
      obtain ⟨rfl, -, rfl⟩ := h
      exact ⟨hb, rfl⟩
  | cons p rest ih =>
    obtain ⟨f, t⟩ := p
    rw [fillLoop_cons] at h
    by_cases hb : bufs.getD k [] = []
    · rw [if_pos hb] at h
      cases hidx : listIndex t tv with
      | none => rw [hidx] at h; simp at h
      | some i => rw [hidx] at h; exact ih _ _ h
    · rw [if_neg hb] at h
      simp only [Except.ok.injEq, Prod.mk.injEq] at h
      obtain ⟨rfl, -, rfl⟩ := h
      exact ⟨hb, rfl⟩

lemma fillLoop_length (tv : List ℤ) (k : ℕ) (stream : List (ℤ × ℤ))
    (bufs bufs' : List (List (ℤ × ℤ))) (noMore nm' : Bool) (stream' : List (ℤ × ℤ))
    (h : fillLoop tv k stream bufs noMore = .ok (bufs', stream', nm')) :
    bufs'.length = bufs.length := by
  induction stream generalizing bufs noMore with
  | nil =>
    rw [fillLoop_nil] at h
    by_cases hb : bufs.getD k [] = [] <;>
      [rw [if_pos hb] at h; rw [if_neg hb] at h] <;>
      · simp only [Except.ok.injEq, Prod.mk.injEq] at h
        rw [← h.1]
  | cons p rest ih =>
    obtain ⟨f, t⟩ := p
    rw [fillLoop_cons] at h
    by_cases hb : bufs.getD k [] = []
    · rw [if_pos hb] at h
      cases hidx : listIndex t tv with
      | none => rw [hidx] at h; simp at h
      | some i =>
        rw [hidx] at h
        have := ih _ _ h
        simpa using this
    · rw [if_neg hb] at h
      simp only [Except.ok.injEq, Prod.mk.injEq] at h
      rw [← h.1]

lemma fillLoop_append (tv : List ℤ) (k : ℕ) (stream : List (ℤ × ℤ))
    (bufs bufs' : List (List (ℤ × ℤ))) (noMore nm' : Bool) (stream' : List (ℤ × ℤ))
    (h : fillLoop tv k stream bufs noMore = .ok (bufs', stream', nm')) :
    ∀ i, ∃ suf, bufs'.getD i [] = bufs.getD i [] ++ suf := by
  induction stream generalizing bufs noMore with
  | nil =>
    rw [fillLoop_nil] at h
    by_cases hb : bufs.getD k [] = [] <;>
      [rw [if_pos hb] at h; rw [if_neg hb] at h] <;>
      · simp only [Except.ok.injEq, Prod.mk.injEq] at h
        obtain ⟨rfl, -, -⟩ := h
        exact fun i => ⟨[], by simp⟩
  | cons p rest ih =>
    obtain ⟨f, t⟩ := p
    rw [fillLoop_cons] at h
    by_cases hb : bufs.getD k [] = []
    · rw [if_pos hb] at h
      cases hidx : listIndex t tv with
      | none => rw [hidx] at h; simp at h
      | some j =>
        rw [hidx] at h
        intro i
        obtain ⟨s2, hs2⟩ := ih _ _ h i
        obtain ⟨s1, hs1⟩ := set_append_getD bufs i j (f, t)
        exact ⟨s1 ++ s2, by rw [hs2, hs1, List.append_assoc]⟩
    · rw [if_neg hb] at h
      simp only [Except.ok.injEq, Prod.mk.injEq] at h
      obtain ⟨rfl, -, -⟩ := h
      exact fun i => ⟨[], by simp⟩

lemma BuffersInv_set (tv : List ℤ) (bufs : List (List (ℤ × ℤ))) (f t : ℤ) (j : ℕ)
    (hinv : BuffersInv tv bufs) (hidx : listIndex t tv = some j) :
    BuffersInv tv (bufs.set j (bufs.getD j [] ++ [(f, t)])) := by
  obtain ⟨hlen, hmem⟩ := hinv
  obtain ⟨hj, hjt⟩ := listIndex_spec t tv j hidx
  refine ⟨by simpa using hlen, ?_⟩
  intro i hi p hp
  rw [List.length_set] at hi
  by_cases hij : i = j
  · subst hij
    rw [getD_set_self _ _ _ (hlen ▸ hj)] at hp
    rcases List.mem_append.mp hp with hp1 | hp1
    · exact hmem i hi p hp1
    · simp at hp1
      rw [hp1, hjt]
  · rw [getD_set_ne _ _ _ _ hij] at hp
    exact hmem i hi p hp

lemma fillLoop_inv (tv : List ℤ) (k : ℕ) (stream : List (ℤ × ℤ))
    (bufs bufs' : List (List (ℤ × ℤ))) (noMore nm' : Bool) (stream' : List (ℤ × ℤ))
    (hinv : BuffersInv tv bufs)
    (h : fillLoop tv k stream bufs noMore = .ok (bufs', stream', nm')) :
    BuffersInv tv bufs' := by
  induction stream generalizing bufs noMore with
  | nil =>
    rw [fillLoop_nil] at h
    by_cases hb : bufs.getD k [] = [] <;>
      [rw [if_pos hb] at h; rw [if_neg hb] at h] <;>
      · simp only [Except.ok.injEq, Prod.mk.injEq] at h
        obtain ⟨rfl, -, -⟩ := h
        exact hinv
  | cons p rest ih =>
    obtain ⟨f, t⟩ := p
    rw [fillLoop_cons] at h
    by_cases hb : bufs.getD k [] = []
    · rw [if_pos hb] at h
      cases hidx : listIndex t tv with
      | none => rw [hidx] at h; simp at h
      | some j =>
        rw [hidx] at h
        exact ih _ _ (BuffersInv_set tv bufs f t j hinv hidx) h
    · rw [if_neg hb] at h
      simp only [Except.ok.injEq, Prod.mk.injEq] at h
      obtain ⟨rfl, -, -⟩ := h
      exact hinv

lemma fillLoop_stream_mem (tv : List ℤ) (k : ℕ) (stream : List (ℤ × ℤ))
    (bufs bufs' : List (List (ℤ × ℤ))) (noMore nm' : Bool) (stream' : List (ℤ × ℤ))
    (h : fillLoop tv k stream bufs noMore = .ok (bufs', stream', nm')) :
    ∀ p ∈ stream', p ∈ stream := by
  induction stream generalizing bufs noMore with
  | nil =>
    rw [fillLoop_nil] at h
    by_cases hb : bufs.getD k [] = [] <;>
      [rw [if_pos hb] at h; rw [if_neg hb] at h] <;>
      · simp only [Except.ok.injEq, Prod.mk.injEq] at h
        obtain ⟨-, h2, -⟩ := h
        rw [← h2]
        intro p hp
        exact hp
  | cons q rest ih =>
    obtain ⟨f, t⟩ := q
    rw [fillLoop_cons] at h
    by_cases hb : bufs.getD k [] = []
    · rw [if_pos hb] at h
      cases hidx : listIndex t tv with
      | none => rw [hidx] at h; simp at h
      | some j =>
        rw [hidx] at h
        intro p hp
        exact List.mem_cons_of_mem _ (ih _ _ h p hp)
    · rw [if_neg hb] at h
      simp only [Except.ok.injEq, Prod.mk.injEq] at h
      obtain ⟨-, h2, -⟩ := h
      rw [← h2]
      intro p hp
      exact hp

lemma fillLoop_exhaust (tv : List ℤ) (k : ℕ) (stream : List (ℤ × ℤ))
    (bufs bufs' : List (List (ℤ × ℤ))) (noMore nm' : Bool) (stream' : List (ℤ × ℤ))
    (hpre : noMore = true → stream = [])
    (h : fillLoop tv k stream bufs noMore = .ok (bufs', stream', nm')) :
    nm' = true → stream' = [] := by
  induction stream generalizing bufs noMore with
  | nil =>
    rw [fillLoop_nil] at h
    by_cases hb : bufs.getD k [] = [] <;>
      [rw [if_pos hb] at h; rw [if_neg hb] at h] <;>
      · simp only [Except.ok.injEq, Prod.mk.injEq] at h
        obtain ⟨-, h2, -⟩ := h
        intro _
        exact h2.symm
  | cons q rest ih =>
    obtain ⟨f, t⟩ := q
    rw [fillLoop_cons] at h
    by_cases hb : bufs.getD k [] = []
    · rw [if_pos hb] at h
      cases hidx : listIndex t tv with
      | none => rw [hidx] at h; simp at h
      | some j =>
        rw [hidx] at h
        exact ih _ _ (fun hm => by simp [hm] at hpre) h
    · rw [if_neg hb] at h
      simp only [Except.ok.injEq, Prod.mk.injEq] at h
      obtain ⟨-, h2, h3⟩ := h
      intro hnm
      rw [← h3] at hnm
      exact absurd (hpre hnm) (by simp)

lemma fillLoop_nil_flagged (tv : List ℤ) (k : ℕ) (bufs : List (List (ℤ × ℤ))) :
    fillLoop tv k [] bufs true = .ok (bufs, [], true) := by
  rw [fillLoop_nil]
  by_cases hb : bufs.getD k [] = [] <;> simp [hb]

lemma fillLoop_total (tv : List ℤ) (k : ℕ) (stream : List (ℤ × ℤ))
    (bufs : List (List (ℤ × ℤ))) (noMore : Bool)
    (hlab : ∀ p ∈ stream, p.2 ∈ tv) :
    ∃ out, fillLoop tv k stream bufs noMore = .ok out := by
  induction stream generalizing bufs noMore with
  | nil =>
    rw [fillLoop_nil]
    by_cases hb : bufs.getD k [] = []
    · rw [if_pos hb]
      exact ⟨_, rfl⟩
    · rw [if_neg hb]
      exact ⟨_, rfl⟩
  | cons q rest ih =>
    obtain ⟨f, t⟩ := q
    rw [fillLoop_cons]
    by_cases hb : bufs.getD k [] = []
    · rw [if_pos hb]
      have ht : t ∈ tv := hlab (f, t) (List.mem_cons_self _ _)
      obtain ⟨j, hj⟩ := Option.isSome_iff_exists.mp (listIndex_isSome t tv ht)
      rw [hj]
      exact ih _ _ fun p hp => hlab p (List.mem_cons_of_mem _ hp)
    · rw [if_neg hb]
      exact ⟨_, rfl⟩

lemma getD_ne_nil_lt (l : List (List (ℤ × ℤ))) (k : ℕ) (h : l.getD k [] ≠ []) :
    k < l.length := by
  by_contra hk
  rw [List.getD_eq_getElem?_getD, List.getElem?_eq_none (le_of_not_lt hk)] at h
  simp at h

lemma BuffersInv_pop (tv : List ℤ) (bufs : List (List (ℤ × ℤ))) (k : ℕ)
    (inst : ℤ × ℤ) (rest : List (ℤ × ℤ))
    (hinv : BuffersInv tv bufs) (hbk : bufs.getD k [] = inst :: rest) :
    BuffersInv tv (bufs.set k rest) := by
  obtain ⟨hlen, hmem⟩ := hinv
  have hk : k < bufs.length := getD_ne_nil_lt bufs k (by rw [hbk]; simp)
  refine ⟨by simpa using hlen, ?_⟩
  intro i hi p hp
  rw [List.length_set] at hi
  by_cases hik : i = k
  · subst hik
    rw [getD_set_self _ _ _ hk] at hp
    exact hmem i hi p (by rw [hbk]; exact List.mem_cons_of_mem _ hp)
  · rw [getD_set_ne _ _ _ _ hik] at hp
    exact hmem i hi p hp

lemma draw_flagged (k : ℕ) (s : ImbState) (h1 : s.no_more_samples = true)
    (h2 : s.original.samples = []) :
    ∃ s', _next_individual_sample k s = .ok ((none, none), s') ∧
      s'.no_more_samples = true ∧ s'.original.samples = [] := by
  unfold _next_individual_sample
  rw [h1, h2]
  simp only [fillLoop_nil_flagged]
  exact ⟨_, rfl, rfl, rfl⟩

lemma draw_total (k : ℕ) (s : ImbState) (tv : List ℤ) (bufs : List (List (ℤ × ℤ)))
    (h1 : s.target_values = some tv) (h2 : s.instance_buffer = some bufs)
    (hlab : ∀ p ∈ s.original.samples, p.2 ∈ tv) :
    ∃ r s', _next_individual_sample k s = .ok (r, s') ∧
      s'.target_values = some tv ∧
      (∃ bufs', s'.instance_buffer = some bufs' ∧ bufs'.length = bufs.length) ∧
      (∀ p ∈ s'.original.samples, p.2 ∈ tv) ∧
      (r = (none, none) ∨ ∃ f t, r = (some f, some t)) := by
  obtain ⟨out, hout⟩ := fillLoop_total tv k s.original.samples bufs s.no_more_samples hlab
  obtain ⟨bufs1, stream1, noMore1⟩ := out
  have hlen := fillLoop_length _ _ _ _ _ _ _ _ hout
  have hmem := fillLoop_stream_mem _ _ _ _ _ _ _ _ hout
  unfold _next_individual_sample
  rw [h1, h2]
  simp only [Option.getD_some, hout]
  cases noMore1 with
  | true =>
    simp only [if_pos]
    refine ⟨_, _, rfl, rfl, ⟨bufs1, rfl, hlen⟩, ?_, Or.inl rfl⟩
    intro p hp
    exact hlab p (hmem p hp)
  | false =>
    simp only [Bool.false_eq_true, if_false]
    obtain ⟨hni, -⟩ := fillLoop_flag_false _ _ _ _ _ _ _ hout
    obtain ⟨a, as, hbk⟩ := List.exists_cons_of_ne_nil hni
    simp only [hbk]
    refine ⟨_, _, rfl, rfl, ⟨bufs1.set k as, rfl, by simp [hlen]⟩, ?_, Or.inr ⟨a.1, a.2, rfl⟩⟩
    intro p hp
    exact hlab p (hmem p hp)

lemma draw_inv (k : ℕ) (s : ImbState) (tv : List ℤ) (bufs : List (List (ℤ × ℤ)))
    (r : Option ℤ × Option ℤ) (s' : ImbState)
    (h1 : s.target_values = some tv) (h2 : s.instance_buffer = some bufs)
    (hinv : BuffersInv tv bufs)
    (h : _next_individual_sample k s = .ok (r, s')) :
    s'.target_values = some tv ∧
      ∃ bufs', s'.instance_buffer = some bufs' ∧ BuffersInv tv bufs' := by
  unfold _next_individual_sample at h
  rw [h1, h2] at h
  simp only [Option.getD_some] at h
  cases hout : fillLoop tv k s.original.samples bufs s.no_more_samples with
  | error e => rw [hout] at h; simp at h
  | ok out =>
    obtain ⟨bufs1, stream1, noMore1⟩ := out
    rw [hout] at h
    have hinv1 := fillLoop_inv _ _ _ _ _ _ _ _ hinv hout
    cases noMore1 with
    | true =>
      simp only [if_pos] at h
      simp only [Except.ok.injEq, Prod.mk.injEq] at h
      obtain ⟨-, rfl⟩ := h
      exact ⟨rfl, bufs1, rfl, hinv1⟩
    | false =>
      simp only [Bool.false_eq_true, if_false] at h
      obtain ⟨hni, -⟩ := fillLoop_flag_false _ _ _ _ _ _ _ hout
      obtain ⟨a, as, hbk⟩ := List.exists_cons_of_ne_nil hni
      simp only [hbk] at h
      simp only [Except.ok.injEq, Prod.mk.injEq] at h
      obtain ⟨-, rfl⟩ := h
      exact ⟨rfl, bufs1.set k as, rfl, BuffersInv_pop tv bufs1 k a as hinv1 hbk⟩

lemma check_errors_ne_schema (r : RatioCfg) (tv : List ℤ) :
    _check_errors r tv ≠ some PrepErr.unsupportedSchema := by
  unfold _check_errors
  split_ifs <;> simp

lemma check_errors_none_iff (r : RatioCfg) (tv : List ℤ) :
    _check_errors r tv = none ↔
      r.isTuple = true ∧ r.elems.length = tv.length ∧
        (r.elems.all PyVal.isPyFloat = true ∨ r.elems.all PyVal.isNpFloat64 = true) ∧
        round6 (r.elems.map PyVal.toRat).sum = 1 := by
  unfold _check_errors
  split_ifs with h1 h2 h3 h4 <;> simp_all

lemma roundHalfEven_int (n : ℤ) : roundHalfEven (n : ℚ) = n := by
  unfold roundHalfEven
  rw [Int.floor_intCast]
  norm_num

lemma round6_eq_self_of_int_mul (x : ℚ) (n : ℤ) (h : x * 1000000 = (n : ℚ)) :
    round6 x = x := by
  unfold round6
  rw [h, roundHalfEven_int, ← h]
  exact mul_div_cancel_right₀ x (by norm_num)

lemma round6_one : round6 1 = 1 :=
  round6_eq_self_of_int_mul 1 1000000 (by norm_num)

lemma sum_wCfg : (wCfg.elems.map PyVal.toRat).sum = 1 := by
  simp [wCfg, PyVal.toRat]
  norm_num

lemma sum_cMixed : (cMixed.elems.map PyVal.toRat).sum = 1 := by
  simp [cMixed, PyVal.toRat]
  norm_num

lemma sum_cRange : (cRange.elems.map PyVal.toRat).sum = 1 := by
  simp [cRange, PyVal.toRat]
  norm_num

lemma check_wCfg : _check_errors wCfg [0, 1] = none := by
  rw [check_errors_none_iff]
  exact ⟨rfl, rfl, Or.inl rfl, by rw [sum_wCfg, round6_one]⟩

lemma check_cRange : _check_errors cRange [0, 1] = none := by
  rw [check_errors_none_iff]
  exact ⟨rfl, rfl, Or.inl rfl, by rw [sum_cRange, round6_one]⟩

lemma prepare_ok (s : ImbState) (hn : s.original.n_targets = 1)
    (hc : _check_errors s.ratio s.original.target_values = none) :
    prepare_for_use s = (none, prepState s) := by
  unfold prepare_for_use _prepare_for_use _set_params_after_init
  simp only [hn, ne_eq, not_true_eq_false, if_false, Option.getD_some, hc]
  simp [prepState, hn]

lemma prepare_config_err (s : ImbState) (e : PrepErr)
    (hn : s.original.n_targets = 1)
    (hc : _check_errors s.ratio s.original.target_values = some e) :
    prepare_for_use s = (some e, prepState s) := by
  unfold prepare_for_use _prepare_for_use _set_params_after_init
  simp only [hn, ne_eq, not_true_eq_false, if_false, Option.getD_some, hc]
  simp [prepState, hn]

lemma prepare_schema_err (s : ImbState) (hn : s.original.n_targets ≠ 1) :
    prepare_for_use s =
      (some PrepErr.unsupportedSchema,
        { s with
          original := { s.original with samples := s.original.init_samples }
          n_targets := some s.original.n_targets }) := by
  unfold prepare_for_use _prepare_for_use _set_params_after_init
  simp only [hn, ne_eq, not_false_eq_true, if_true]

lemma restart_eq_prepare (s : ImbState) : restart s = prepare_for_use s := rfl

lemma check_cBadSum : _check_errors cBadSum [0, 1] = some PrepErr.badSum := by
  unfold _check_errors
  rw [if_neg (by decide), if_neg (by decide), if_neg (by decide), if_pos]
  have hs : (cBadSum.elems.map PyVal.toRat).sum = 3/4 := by
    simp [cBadSum, PyVal.toRat]
    norm_num
  rw [hs, round6_eq_self_of_int_mul (3/4) 750000 (by norm_num)]
  norm_num

lemma BuffersInv_replicate (tv : List ℤ) :
    BuffersInv tv (List.replicate tv.length ([] : List (ℤ × ℤ))) := by
  refine ⟨by simp, ?_⟩
  intro i hi p hp
  rw [getD_replicate_nil] at hp
  simp at hp

lemma next_sample_flagged : ∀ (ks : List ℕ) (s : ImbState),
    s.no_more_samples = true → s.original.samples = [] →
    ∃ s', next_sample ks s = .ok (([], []), s') ∧
      s'.no_more_samples = true ∧ s'.original.samples = []
  | [], s, h1, h2 => ⟨s, rfl, h1, h2⟩
  | k :: ks, s, h1, h2 => by
    obtain ⟨s1, hd, h1', h2'⟩ := draw_flagged k s h1 h2
    obtain ⟨s', hrec, hn', hs'⟩ := next_sample_flagged ks s1 h1' h2'
    refine ⟨s', ?_, hn', hs'⟩
    simp only [next_sample, hd, hrec]

lemma next_sample_inv : ∀ (ks : List ℕ) (s : ImbState) (tv : List ℤ)
    (bufs : List (List (ℤ × ℤ))) (r : List ℤ × List ℤ) (s' : ImbState),
    s.target_values = some tv → s.instance_buffer = some bufs →
    BuffersInv tv bufs → next_sample ks s = .ok (r, s') →
    s'.target_values = some tv ∧
      ∃ bufs', s'.instance_buffer = some bufs' ∧ BuffersInv tv bufs'
  | [], s, tv, bufs, r, s', h1, h2, h3, h => by
    simp only [next_sample, Except.ok.injEq, Prod.mk.injEq] at h
    obtain ⟨-, rfl⟩ := h
    exact ⟨h1, bufs, h2, h3⟩
  | k :: ks, s, tv, bufs, r, s', h1, h2, h3, h => by
    simp only [next_sample] at h
    cases hd : _next_individual_sample k s with
    | error e => rw [hd] at h; simp at h
    | ok out =>
      obtain ⟨⟨f?, t?⟩, s1⟩ := out
      obtain ⟨h1', bufs1, h2', hinv1⟩ := draw_inv k s tv bufs (f?, t?) s1 h1 h2 h3 hd
      simp only [hd] at h
      cases hrec : next_sample ks s1 with
      | error e => rw [hrec] at h; simp at h
      | ok out2 =>
        obtain ⟨⟨fs, ts⟩, s2⟩ := out2
        obtain ⟨hv1, hv2, hs2⟩ :=
          next_sample_inv ks s1 tv bufs1 (fs, ts) s2 h1' h2' hinv1 hrec
        simp only [hrec] at h
        cases f? <;> cases t? <;>
          · simp only [Except.ok.injEq, Prod.mk.injEq] at h
            obtain ⟨-, rfl⟩ := h
            exact ⟨hv1, hv2, hs2⟩

lemma next_sample_total : ∀ (ks : List ℕ) (s : ImbState) (tv : List ℤ)
    (bufs : List (List (ℤ × ℤ))),
    s.target_values = some tv → s.instance_buffer = some bufs →
    bufs.length = tv.length → (∀ p ∈ s.original.samples, p.2 ∈ tv) →
    ∃ trace s', drawResults ks s = .ok (trace, s') ∧
      trace.length = ks.length ∧
      next_sample ks s = .ok ((trace.filterMap Prod.fst, trace.filterMap Prod.snd), s') ∧
      (trace.filterMap Prod.fst).length = (trace.filterMap Prod.snd).length ∧
      (trace.filterMap Prod.fst).length ≤ ks.length
  | [], s, tv, bufs, h1, h2, h3, h4 => ⟨[], s, rfl, rfl, rfl, rfl, by simp⟩
  | k :: ks, s, tv, bufs, h1, h2, h3, h4 => by
    obtain ⟨r, s1, hd, h1', ⟨bufs1, h2', hlen1⟩, h4', hshape⟩ :=
      draw_total k s tv bufs h1 h2 h4
    obtain ⟨trace, s', hdr, hlen, hns, hfl, hle⟩ :=
      next_sample_total ks s1 tv bufs1 h1' h2' (hlen1.trans h3) h4'
    refine ⟨r :: trace, s', ?_, by simp [hlen], ?_, ?_, ?_⟩
    · simp only [drawResults, hd, hdr]
    · cases hshape with
      | inl hr => subst hr; simp [next_sample, hd, hns]
      | inr hr =>
        obtain ⟨f, t, hr⟩ := hr
        subst hr
        simp [next_sample, hd, hns]
    · cases hshape with
      | inl hr => subst hr; simpa using hfl
      | inr hr =>
        obtain ⟨f, t, hr⟩ := hr
        subst hr
        simpa using hfl
    · cases hshape with
      | inl hr =>
        subst hr
        simpa using hle.trans (Nat.le_succ _)
      | inr hr =>
        obtain ⟨f, t, hr⟩ := hr
        subst hr
        simpa using Nat.succ_le_succ hle

/-! ## Claim theorems -/

/-- C1: when the exhaustion flag is clear and the single-instance draw for
class index `k` returns an instance, that instance is the front pair of
buffer `k` after the fill loop, its class value is the registry entry at
index `k`, the post-state buffer `k` is the popped tail (FIFO pop at the
front), the fill loop only appended at the back of each buffer, and the
remaining wrapped stream is the loop's leftover — so per class, instances
are served in exactly the order they were pulled. -/
theorem draw_serves_fifo_front (s s' : ImbState) (tv : List ℤ)
    (bufs : List (List (ℤ × ℤ))) (k : ℕ) (f t : ℤ)
    (h1 : s.target_values = some tv) (h2 : s.instance_buffer = some bufs)
    (h3 : BuffersInv tv bufs) (h4 : s.no_more_samples = false) (h5 : k < tv.length)
    (h6 : _next_individual_sample k s = .ok ((some f, some t), s')) :
    ∃ bufs1 stream1,
      fillLoop tv k s.original.samples bufs false = .ok (bufs1, stream1, false) ∧
      (bufs1.getD k []).head? = some (f, t) ∧
      tv.getD k 0 = t ∧
      s'.instance_buffer = some (bufs1.set k ((bufs1.getD k []).tail)) ∧
      s'.original.samples = stream1 ∧
      ∀ i, ∃ suf, bufs1.getD i [] = bufs.getD i [] ++ suf := by
  unfold _next_individual_sample at h6
  rw [h1, h2, h4] at h6
  simp only [Option.getD_some] at h6
  cases hout : fillLoop tv k s.original.samples bufs false with
  | error e => rw [hout] at h6; simp at h6
  | ok out =>
    obtain ⟨bufs1, stream1, noMore1⟩ := out
    cases noMore1 with
    | true =>
      simp only [hout, if_pos] at h6
      simp at h6
    | false =>
      simp only [hout, Bool.false_eq_true, if_false] at h6
      obtain ⟨hni, -⟩ := fillLoop_flag_false _ _ _ _ _ _ _ hout
      obtain ⟨a, as, hbk⟩ := List.exists_cons_of_ne_nil hni
      obtain ⟨a1, a2⟩ := a
      simp only [hbk, Except.ok.injEq, Prod.mk.injEq, Option.some.injEq] at h6
      obtain ⟨⟨rfl, rfl⟩, rfl⟩ := h6
      have hinv1 := fillLoop_inv _ _ _ _ _ _ _ _ h3 hout
      have hlen1 := fillLoop_length _ _ _ _ _ _ _ _ hout
      refine ⟨bufs1, stream1, rfl, ?_, ?_, ?_, ?_, fun i => fillLoop_append _ _ _ _ _ _ _ _ hout i⟩
      · rw [hbk]
        rfl
      · have hk1 : k < bufs1.length := by rw [hlen1, h3.1]; exact h5
        exact hinv1.2 k hk1 (a1, a2) (by rw [hbk]; exact List.mem_cons_self _ _)
      · rw [hbk]
        rfl
      · rfl

/-- C1 witness: drawing class index 1 from the freshly prepared `wPrepared`
serves `(11, 1)`, the front of buffer 1 after filling, in pull order. -/
theorem draw_serves_fifo_front_witness :
    (wPrepared.target_values = some [0, 1] ∧
     wPrepared.instance_buffer = some [[], []] ∧
     BuffersInv [0, 1] [[], []] ∧
     wPrepared.no_more_samples = false ∧
     1 < ([0, 1] : List ℤ).length ∧
     _next_individual_sample 1 wPrepared = .ok ((some 11, some 1), wDrawn)) ∧
    ∃ bufs1 stream1,
      fillLoop [0, 1] 1 wPrepared.original.samples [[], []] false =
        .ok (bufs1, stream1, false) ∧
      (bufs1.getD 1 []).head? = some (11, 1) ∧
      ([0, 1] : List ℤ).getD 1 0 = 1 ∧
      wDrawn.instance_buffer = some (bufs1.set 1 ((bufs1.getD 1 []).tail)) ∧
      wDrawn.original.samples = stream1 ∧
      ∀ i, ∃ suf, bufs1.getD i [] = ([[], []] : List (List (ℤ × ℤ))).getD i [] ++ suf :=
  ⟨⟨rfl, rfl, by decide, rfl, by decide, rfl⟩,
   draw_serves_fifo_front wPrepared wDrawn [0, 1] [[], []] 1 11 1 rfl rfl
     (by decide) rfl (by decide) rfl⟩

/-- C2: after a successful preparation every buffer is empty and well-classed
(`BuffersInv`: buffer `i` holds only pairs whose class value is registry
entry `i`), and the invariant is preserved by every single-instance draw and
by every batch call. -/
theorem buffers_invariant :
    (∀ (orig : OrigStream) (cfg : RatioCfg) (s1 : ImbState),
      prepare_for_use (initImb orig cfg) = (none, s1) →
      ∃ tv bufs, s1.target_values = some tv ∧ s1.instance_buffer = some bufs ∧
        BuffersInv tv bufs) ∧
    (∀ (s : ImbState) (tv : List ℤ) (bufs : List (List (ℤ × ℤ))) (k : ℕ)
      (r : Option ℤ × Option ℤ) (s' : ImbState),
      s.target_values = some tv → s.instance_buffer = some bufs →
      BuffersInv tv bufs → _next_individual_sample k s = .ok (r, s') →
      s'.target_values = some tv ∧
        ∃ bufs', s'.instance_buffer = some bufs' ∧ BuffersInv tv bufs') ∧
    (∀ (ks : List ℕ) (s : ImbState) (tv : List ℤ) (bufs : List (List (ℤ × ℤ)))
      (r : List ℤ × List ℤ) (s' : ImbState),
      s.target_values = some tv → s.instance_buffer = some bufs →
      BuffersInv tv bufs → next_sample ks s = .ok (r, s') →
      ∃ bufs', s'.instance_buffer = some bufs' ∧ BuffersInv tv bufs') := by
  refine ⟨?_, ?_, ?_⟩
  · intro orig cfg s1 h
    by_cases hn : (initImb orig cfg).original.n_targets = 1
    · cases hc : _check_errors (initImb orig cfg).ratio
        (initImb orig cfg).original.target_values with
      | some e => rw [prepare_config_err _ e hn hc] at h; simp at h
      | none =>
        rw [prepare_ok _ hn hc] at h
        simp only [Prod.mk.injEq] at h
        obtain ⟨-, rfl⟩ := h
        exact ⟨orig.target_values, _, rfl, rfl, BuffersInv_replicate _⟩
    · rw [prepare_schema_err _ hn] at h
      simp at h
  · intro s tv bufs k r s' h1 h2 h3 h4
    exact draw_inv k s tv bufs r s' h1 h2 h3 h4
  · intro ks s tv bufs r s' h1 h2 h3 h4
    exact (next_sample_inv ks s tv bufs r s' h1 h2 h3 h4).2

/-- C2 witness: the invariant holds after preparing `wOrig` and is preserved
by the concrete draw that produces `wDrawn`. -/
theorem buffers_invariant_witness :
    prepare_for_use (initImb wOrig wCfg) = (none, wPrepared) ∧
    (∃ tv bufs, wPrepared.target_values = some tv ∧
      wPrepared.instance_buffer = some bufs ∧ BuffersInv tv bufs) ∧
    (wDrawn.target_values = some [0, 1] ∧
      ∃ bufs', wDrawn.instance_buffer = some bufs' ∧ BuffersInv [0, 1] bufs') :=
  ⟨prepare_ok (initImb wOrig wCfg) rfl check_wCfg,
   buffers_invariant.1 wOrig wCfg wPrepared
     (prepare_ok (initImb wOrig wCfg) rfl check_wCfg),
   buffers_invariant.2.1 wPrepared [0, 1] [[], []] 1 (some 11, some 1) wDrawn
     rfl rfl (by decide) rfl⟩

/-- C3 counterexample: a tuple mixing a Python `float` with a NumPy
`np.float64` satisfies all four conditions of the claim — it is a tuple, its
length matches the registry, every element is a floating-point number, and
its sum rounds to 1.0 — yet `_check_errors` raises, because the code demands
that all elements share one single floating-point representation. -/
theorem check_errors_mixed_counterexample :
    cMixed.isTuple = true ∧
    cMixed.elems.length = ([0, 1] : List ℤ).length ∧
    cMixed.elems.all PyVal.isFloatLike = true ∧
    round6 (cMixed.elems.map PyVal.toRat).sum = 1 ∧
    _check_errors cMixed [0, 1] = some PrepErr.badElementType :=
  ⟨rfl, rfl, rfl, by rw [sum_cMixed, round6_one], by decide⟩

/-- C3 (amended): validation passes exactly when the ratio is a tuple, its
length equals the registry's, its elements are either all Python floats or
all NumPy float64 values (mixing the two representations is rejected, as is
any non-float element), and its sum rounded to 6 decimal places equals 1.0. -/
theorem check_errors_passes_iff (r : RatioCfg) (tv : List ℤ) :
    _check_errors r tv = none ↔
      r.isTuple = true ∧ r.elems.length = tv.length ∧
        (r.elems.all PyVal.isPyFloat = true ∨ r.elems.all PyVal.isNpFloat64 = true) ∧
        round6 (r.elems.map PyVal.toRat).sum = 1 :=
  check_errors_none_iff r tv

lemma draw_exhaust_inv (k : ℕ) (s0 : ImbState) (r : Option ℤ × Option ℤ)
    (s1 : ImbState)
    (hpre : s0.no_more_samples = true → s0.original.samples = [])
    (h : _next_individual_sample k s0 = .ok (r, s1)) :
    s1.no_more_samples = true → s1.original.samples = [] := by
  unfold _next_individual_sample at h
  cases hout : fillLoop (s0.target_values.getD []) k s0.original.samples
      (s0.instance_buffer.getD []) s0.no_more_samples with
  | error e => simp only [hout] at h; simp at h
  | ok out =>
    obtain ⟨bufs1, stream1, noMore1⟩ := out
    have hex := fillLoop_exhaust _ _ _ _ _ _ _ _ hpre hout
    simp only [hout] at h
    cases noMore1 with
    | true =>
      simp only [if_pos] at h
      simp only [Except.ok.injEq, Prod.mk.injEq] at h
      obtain ⟨-, rfl⟩ := h
      exact fun _ => hex rfl
    | false =>
      simp only [Bool.false_eq_true, if_false] at h
      obtain ⟨hni, -⟩ := fillLoop_flag_false _ _ _ _ _ _ _ hout
      obtain ⟨a, as, hbk⟩ := List.exists_cons_of_ne_nil hni
      simp only [hbk, Except.ok.injEq, Prod.mk.injEq] at h
      obtain ⟨-, rfl⟩ := h
      intro hf
      exact absurd hf (by simp)

/-- C4: in an exhausted state (flag set, wrapped stream drained), the flag
is permanent and sterile: `has_more_samples` is false and every batch call,
for every oracle sequence, returns two empty sequences while keeping the
flag set and the stream drained — no instance is ever produced, even when
other buffers are non-empty, until a restart resets the flag.  The last
conjunct justifies the hypothesis: every draw preserves the fact that a set
flag comes with a drained wrapped stream, so every reachable flagged state
satisfies it. -/
theorem exhaustion_latches (s : ImbState)
    (h1 : s.no_more_samples = true) (h2 : s.original.samples = []) :
    has_more_samples s = false ∧
    (∀ ks, ∃ s', next_sample ks s = .ok (([], []), s') ∧
      s'.no_more_samples = true ∧ s'.original.samples = []) ∧
    (∀ (s0 : ImbState) (k : ℕ) (r : Option ℤ × Option ℤ) (s1 : ImbState),
      (s0.no_more_samples = true → s0.original.samples = []) →
      _next_individual_sample k s0 = .ok (r, s1) →
      (s1.no_more_samples = true → s1.original.samples = [])) := by
  refine ⟨?_, ?_, ?_⟩
  · unfold has_more_samples
    rw [h1, h2]
    rfl
  · intro ks
    exact next_sample_flagged ks s h1 h2
  · intro s0 k r s1 hpre h
    exact draw_exhaust_inv k s0 r s1 hpre h

/-- C4 witness: the exhausted state `wExhausted` yields nothing for the
three-draw oracle `[0, 1, 0]` and stays exhausted. -/
theorem exhaustion_latches_witness :
    (wExhausted.no_more_samples = true ∧ wExhausted.original.samples = []) ∧
    has_more_samples wExhausted = false ∧
    (∃ s', next_sample [0, 1, 0] wExhausted = .ok (([], []), s') ∧
      s'.no_more_samples = true ∧ s'.original.samples = []) ∧
    (wDrawn.no_more_samples = true → wDrawn.original.samples = []) :=
  ⟨⟨rfl, rfl⟩, (exhaustion_latches wExhausted rfl rfl).1,
   (exhaustion_latches wExhausted rfl rfl).2.1 [0, 1, 0],
   (exhaustion_latches wExhausted rfl rfl).2.2 wPrepared 1 (some 11, some 1)
     wDrawn (fun hf => absurd hf (by decide)) rfl⟩

/-- C5 counterexample: `next_sample` can raise.  `wOutState` is a prepared
state with a valid configuration (its preparation returned no error), yet a
single-draw batch raises the uncaught lookup error because the wrapped
stream yields the unregistered label 99. -/
theorem next_batch_raises_counterexample :
    prepare_for_use (initImb wOutOrig wCfg) = (none, wOutState) ∧
    next_sample [0] wOutState = .error DrawErr.lookupFail :=
  ⟨prepare_ok (initImb wOutOrig wCfg) rfl check_wCfg, rfl⟩

/-- C5 (amended): for a prepared state whose wrapped stream only yields
registered class values (and oracle indices in range, as the categorical
draw guarantees), a batch over oracle `ks` invokes the single-instance draw
exactly `ks.length` times, never raises, keeps exactly the non-sentinel
results in draw order, and returns two aligned sequences of equal length at
most `ks.length`. -/
theorem next_batch_collects (s : ImbState) (tv : List ℤ)
    (bufs : List (List (ℤ × ℤ))) (ks : List ℕ)
    (h1 : s.target_values = some tv) (h2 : s.instance_buffer = some bufs)
    (h3 : bufs.length = tv.length)
    (h4 : ∀ p ∈ s.original.samples, p.2 ∈ tv)
    (h5 : ∀ k ∈ ks, k < tv.length) :
    ∃ trace s', drawResults ks s = .ok (trace, s') ∧
      trace.length = ks.length ∧
      next_sample ks s = .ok ((trace.filterMap Prod.fst, trace.filterMap Prod.snd), s') ∧
      (trace.filterMap Prod.fst).length = (trace.filterMap Prod.snd).length ∧
      (trace.filterMap Prod.fst).length ≤ ks.length :=
  next_sample_total ks s tv bufs h1 h2 h3 h4

/-- C5 witness: a three-draw batch on the freshly prepared `wPrepared`. -/
theorem next_batch_collects_witness :
    (wPrepared.target_values = some [0, 1] ∧
     wPrepared.instance_buffer = some [[], []] ∧
     ([[], []] : List (List (ℤ × ℤ))).length = ([0, 1] : List ℤ).length ∧
     (∀ p ∈ wPrepared.original.samples, p.2 ∈ ([0, 1] : List ℤ)) ∧
     (∀ k ∈ [1, 0, 0], k < ([0, 1] : List ℤ).length)) ∧
    ∃ trace s', drawResults [1, 0, 0] wPrepared = .ok (trace, s') ∧
      trace.length = ([1, 0, 0] : List ℕ).length ∧
      next_sample [1, 0, 0] wPrepared =
        .ok ((trace.filterMap Prod.fst, trace.filterMap Prod.snd), s') ∧
      (trace.filterMap Prod.fst).length = (trace.filterMap Prod.snd).length ∧
      (trace.filterMap Prod.fst).length ≤ ([1, 0, 0] : List ℕ).length :=
  ⟨⟨rfl, rfl, rfl, by decide, by decide⟩,
   next_batch_collects wPrepared [0, 1] [[], []] [1, 0, 0] rfl rfl rfl
     (by decide) (by decide)⟩

/-- C6: preparation fails with the schema error (`UnsupportedSchemaError` in
the spec's taxonomy) exactly when the wrapped stream's number of target
dimensions differs from 1, and preparation never pulls a sample: whatever
the outcome, the wrapped stream afterwards still holds its full initial
sequence. -/
theorem prepare_schema_check (s : ImbState) :
    ((prepare_for_use s).1 = some PrepErr.unsupportedSchema ↔
      s.original.n_targets ≠ 1) ∧
    (prepare_for_use s).2.original.samples = s.original.init_samples := by
  by_cases hn : s.original.n_targets = 1
  · cases hc : _check_errors s.ratio s.original.target_values with
    | some e =>
      rw [prepare_config_err s e hn hc]
      refine ⟨⟨fun h => ?_, fun h => absurd hn h⟩, rfl⟩
      exact absurd (Option.some.inj h ▸ hc) (check_errors_ne_schema _ _)
    | none =>
      rw [prepare_ok s hn hc]
      exact ⟨⟨fun h => by simp at h, fun h => absurd hn h⟩, rfl⟩
  · rw [prepare_schema_err s hn]
    exact ⟨⟨fun _ => hn, fun _ => rfl⟩, rfl⟩

/-- C7: a successful `restart` reruns the wrapped stream's restart and the
full preparation: afterwards the wrapped stream is back at its initial
sequence, the exhaustion flag is clear, the registry is freshly copied, and
every per-class buffer is empty (no stale buffered instance survives). -/
theorem restart_resets (s s' : ImbState) (h : restart s = (none, s')) :
    s'.original.samples = s.original.init_samples ∧
    s'.no_more_samples = false ∧
    s'.target_values = some s.original.target_values ∧
    s'.instance_buffer =
      some (List.replicate s.original.target_values.length ([] : List (ℤ × ℤ))) := by
  rw [restart_eq_prepare] at h
  by_cases hn : s.original.n_targets = 1
  · cases hc : _check_errors s.ratio s.original.target_values with
    | some e => rw [prepare_config_err s e hn hc] at h; simp at h
    | none =>
      rw [prepare_ok s hn hc] at h
      simp only [Prod.mk.injEq] at h
      obtain ⟨-, rfl⟩ := h
      exact ⟨rfl, rfl, rfl, rfl⟩
  · rw [prepare_schema_err s hn] at h
    simp at h

/-- C7 witness: restarting a state of `wOrig` (here: the drawn state
`wDrawn`, whose buffers are stale and whose stream is partly consumed)
succeeds and restores the fresh prepared shape. -/
theorem restart_resets_witness :
    restart wDrawn = (none, prepState wDrawn) ∧
    ((prepState wDrawn).original.samples = wDrawn.original.init_samples ∧
     (prepState wDrawn).no_more_samples = false ∧
     (prepState wDrawn).target_values = some wDrawn.original.target_values ∧
     (prepState wDrawn).instance_buffer =
       some (List.replicate wDrawn.original.target_values.length ([] : List (ℤ × ℤ)))) :=
  ⟨(restart_eq_prepare wDrawn).trans (prepare_ok wDrawn rfl check_wCfg),
   restart_resets wDrawn (prepState wDrawn)
     ((restart_eq_prepare wDrawn).trans (prepare_ok wDrawn rfl check_wCfg))⟩

/-- C8 counterexample: a preparation that raises the configuration error
`badSum` nevertheless leaves `has_more_samples` returning `true` — the
buffers were allocated and the exhaustion flag cleared before validation
ran, and nothing marks the state as not ready. -/
theorem failed_prepare_has_more_counterexample :
    (prepare_for_use (initImb wOrig cBadSum)).1 = some PrepErr.badSum ∧
    has_more_samples (prepare_for_use (initImb wOrig cBadSum)).2 = true := by
  rw [prepare_config_err (initImb wOrig cBadSum) PrepErr.badSum rfl check_cBadSum]
  exact ⟨rfl, rfl⟩

/-- C8 (amended): when preparation fails with a configuration error, the
validator itself mutates nothing — the resulting state is exactly the
pre-validation state (flag cleared, fresh empty buffers, ratio untouched,
wrapped stream at its full initial sequence, and the error is the pure
verdict of `_check_errors` on the configuration) — but no not-ready signal
is left behind: `has_more_samples` afterwards reflects only the freshly
prepared wrapped stream and returns `true` whenever it is non-empty. -/
theorem failed_prepare_state (s s' : ImbState) (e : PrepErr)
    (h : prepare_for_use s = (some e, s'))
    (he : e ≠ PrepErr.unsupportedSchema) :
    s'.no_more_samples = false ∧
    s'.instance_buffer =
      some (List.replicate s.original.target_values.length ([] : List (ℤ × ℤ))) ∧
    s'.ratio = s.ratio ∧
    s'.original.samples = s.original.init_samples ∧
    _check_errors s.ratio s.original.target_values = some e ∧
    has_more_samples s' = !s.original.init_samples.isEmpty := by
  by_cases hn : s.original.n_targets = 1
  · cases hc : _check_errors s.ratio s.original.target_values with
    | some e' =>
      rw [prepare_config_err s e' hn hc] at h
      simp only [Prod.mk.injEq, Option.some.injEq] at h
      obtain ⟨rfl, rfl⟩ := h
      refine ⟨rfl, rfl, rfl, rfl, rfl, ?_⟩
      unfold has_more_samples prepState
      simp
    | none =>
      rw [prepare_ok s hn hc] at h
      simp at h
  · rw [prepare_schema_err s hn] at h
    simp only [Prod.mk.injEq, Option.some.injEq] at h
    exact absurd h.1.symm he

/-- C8 witness: the `badSum` preparation failure on `wOrig`. -/
theorem failed_prepare_state_witness :
    (prepare_for_use (initImb wOrig cBadSum) = (some PrepErr.badSum, wFailed) ∧
     PrepErr.badSum ≠ PrepErr.unsupportedSchema) ∧
    (wFailed.no_more_samples = false ∧
     wFailed.instance_buffer =
       some (List.replicate (initImb wOrig cBadSum).original.target_values.length
         ([] : List (ℤ × ℤ))) ∧
     wFailed.ratio = (initImb wOrig cBadSum).ratio ∧
     wFailed.original.samples = (initImb wOrig cBadSum).original.init_samples ∧
     _check_errors (initImb wOrig cBadSum).ratio
       (initImb wOrig cBadSum).original.target_values = some PrepErr.badSum ∧
     has_more_samples wFailed =
       !(initImb wOrig cBadSum).original.init_samples.isEmpty) :=
  ⟨⟨prepare_config_err (initImb wOrig cBadSum) PrepErr.badSum rfl check_cBadSum,
    by decide⟩,
   failed_prepare_state (initImb wOrig cBadSum) wFailed PrepErr.badSum
     (prepare_config_err (initImb wOrig cBadSum) PrepErr.badSum rfl check_cBadSum)
     (by decide)⟩

/-- C9: the single-instance draw never raises when every label the wrapped
stream can still yield is in the class registry; but on a stream yielding
the unregistered label 99 it raises the uncaught lookup error
(`list.index`'s `ValueError`, not caught by the `except IndexError` clause)
instead of treating the instance as exhaustion or filing it. -/
theorem draw_total_iff_labels_registered :
    (∀ (s : ImbState) (tv : List ℤ) (k : ℕ), s.target_values = some tv →
      (∀ p ∈ s.original.samples, p.2 ∈ tv) →
      ∃ r, _next_individual_sample k s = .ok r) ∧
    _next_individual_sample 0 wOutState = .error DrawErr.lookupFail := by
  constructor
  · intro s tv k h1 hlab
    obtain ⟨out, hout⟩ := fillLoop_total tv k s.original.samples
      (s.instance_buffer.getD []) s.no_more_samples hlab
    obtain ⟨bufs1, stream1, noMore1⟩ := out
    unfold _next_individual_sample
    rw [h1]
    simp only [Option.getD_some, hout]
    cases noMore1 with
    | true =>
      simp only [if_pos]
      exact ⟨_, rfl⟩
    | false =>
      simp only [Bool.false_eq_true, if_false]
      obtain ⟨hni, -⟩ := fillLoop_flag_false _ _ _ _ _ _ _ hout
      obtain ⟨a, as, hbk⟩ := List.exists_cons_of_ne_nil hni
      simp only [hbk]
      exact ⟨_, rfl⟩
  · rfl

/-- C9 witness: on `wPrepared`, whose stream labels all sit in the registry,
the draw for class index 0 completes without raising. -/
theorem draw_total_iff_labels_registered_witness :
    (wPrepared.target_values = some [0, 1] ∧
     (∀ p ∈ wPrepared.original.samples, p.2 ∈ ([0, 1] : List ℤ))) ∧
    ∃ r, _next_individual_sample 0 wPrepared = .ok r :=
  ⟨⟨rfl, by decide⟩,
   draw_total_iff_labels_registered.1 wPrepared [0, 1] 0 rfl (by decide)⟩

/-- C10: configuration validation performs no per-entry range check: the
all-float tuple `(1.5, -0.5)` has an entry above 1 and an entry below 0, its
sum rounds to 1.0, and both `_check_errors` and a full `prepare_for_use`
succeed on it without error. -/
theorem check_errors_no_range_check :
    cRange.isTuple = true ∧
    cRange.elems.all PyVal.isPyFloat = true ∧
    (∃ v ∈ cRange.elems, v.toRat < 0) ∧
    (∃ v ∈ cRange.elems, 1 < v.toRat) ∧
    round6 (cRange.elems.map PyVal.toRat).sum = 1 ∧
    _check_errors cRange wOrig.target_values = none ∧
    (prepare_for_use (initImb wOrig cRange)).1 = none := by
  refine ⟨rfl, rfl, ?_, ?_, ?_, check_cRange, ?_⟩
  · exact ⟨.pfloat (-1/2), List.mem_cons_of_mem _ (List.mem_cons_self _ _),
      by norm_num [PyVal.toRat]⟩
  · exact ⟨.pfloat (3/2), List.mem_cons_self _ _, by norm_num [PyVal.toRat]⟩
  · rw [sum_cRange, round6_one]
  · rw [prepare_ok (initImb wOrig cRange) rfl check_cRange]
